import Mathlib

/-!
Shallow embedding of `src/contest_template/cpp/tester.cpp`: a template for an
interactive-judge tester.  The `JudgeInterface` class keeps a query counter and
a query limit; `input()` reads one line of the solution's output (checking the
limit first), `output()` writes a line, `correct_answer()` / `wrong_answer()`
terminate the process with exit status 0 / 1.  `main` runs a number-guessing
loop around target 42.

Modelling decisions:
* the C++ `int` fields become `Nat` (for `query_count`, which starts at 0 and
  only increments) and `Int` (for `max_queries`, which `set_max_queries` may
  set to any integer).  `query_count` can never pass `max_queries + 1`, so the
  32-bit overflow of `int` is unreachable and unbounded integers are faithful;
* the input stream is the list of lines not yet consumed, each already
  stripped of its line terminator (as `getline` strips it); `getline` on an
  exhausted stream fails and leaves the freshly default-constructed string
  empty, so reading from `[]` yields `""`;
* a process-terminating call (`exit`) is modelled by an `ExitOutcome` value
  recording the exit status and the lines written to `cout` and `cerr`, which
  propagates up the loop without any further effects being appended after it.
-/

namespace Tester

/-- The fields of `JudgeInterface`: `int query_count; int max_queries;`. -/
structure JudgeState where
  query_count : Nat
  max_queries : Int
  deriving DecidableEq, Repr

/-- `JudgeInterface() : query_count(0), max_queries(100)` — the constructor. -/
def JudgeState.init : JudgeState := ⟨0, 100⟩

/-- `void set_max_queries(int max) { max_queries = max; }` -/
def set_max_queries (s : JudgeState) (m : Int) : JudgeState :=
  { s with max_queries := m }

/-- Observable effect of a process-terminating call: the exit status and the
lines written to `cout` / `cerr` by the terminating call itself. -/
structure ExitOutcome where
  status : Nat
  stdoutLines : List String
  stderrLines : List String
  deriving DecidableEq, Repr

/-- `void correct_answer() { exit(0); }` -/
def correct_answer : ExitOutcome := ⟨0, [], []⟩

/-- `void wrong_answer(const string& message) { cerr << "Wrong Answer: " <<
message << endl; exit(1); }` -/
def wrong_answer (message : String) : ExitOutcome :=
  ⟨1, [], ["Wrong Answer: " ++ message]⟩

/-- `judge.output(message); <terminating call>`: the line written by
`output` (`cout << message << endl; cout.flush();`) precedes the terminating
call's own output. -/
def outputThen (message : String) (e : ExitOutcome) : ExitOutcome :=
  { e with stdoutLines := message :: e.stdoutLines }

/-- Lines already written by `output` prepended to a later exit's record. -/
def prependOut (out : List String) (e : ExitOutcome) : ExitOutcome :=
  { e with stdoutLines := out ++ e.stdoutLines }

/-- Result of `string input()`: either the process exits inside the call (the
query-limit branch calls `wrong_answer`), or a line is returned together with
the updated judge state and the rest of the stream. -/
inductive InputResult where
  | exited (e : ExitOutcome)
  | ok (line : String) (s : JudgeState) (rest : List String)
  deriving DecidableEq, Repr

/-- `string input()` from `tester.cpp`:
```
if (query_count >= max_queries) { wrong_answer("クエリ制限超過"); }
query_count++;
string input; getline(cin, input); return input;
``` -/
def input (s : JudgeState) (stdin : List String) : InputResult :=
  if s.max_queries ≤ (s.query_count : Int) then
    .exited (wrong_answer "クエリ制限超過")
  else
    match stdin with
    | [] => .ok "" { s with query_count := s.query_count + 1 } []
    | l :: rest => .ok l { s with query_count := s.query_count + 1 } rest

/-- `isspace` in the default locale, as skipped by `strtol`. -/
def isSpaceChar (c : Char) : Bool :=
  c = ' ' || c = '\t' || c = '\n' || c = '\x0b' || c = '\x0c' || c = '\r'

/-- The run of decimal digits `strtol` consumes from the front of `cs`, as a
number; `none` when the run is empty (no conversion could be performed). -/
def parseDigits (cs : List Char) : Option Nat :=
  let ds := cs.takeWhile Char.isDigit
  if ds.isEmpty then none
  else some (ds.foldl (fun acc c => acc * 10 + (c.toNat - 48)) 0)

/-- `std::stoi(str)` in base 10, as called in `main`: skip leading whitespace,
read an optional sign, then as many decimal digits as possible, ignoring the
rest of the string.  `none` models a thrown exception: `invalid_argument` when
no digits are found, `out_of_range` when the value does not fit in `int`. -/
def stoiResult (str : String) : Option Int :=
  let cs := str.toList.dropWhile isSpaceChar
  let signAndDigits : Int × Option Nat :=
    match cs with
    | '+' :: rest => (1, parseDigits rest)
    | '-' :: rest => (-1, parseDigits rest)
    | _ => (1, parseDigits cs)
  match signAndDigits with
  | (_, none) => none
  | (sign, some d) =>
      let v : Int := sign * (d : Int)
      if -2147483648 ≤ v ∧ v ≤ 2147483647 then some v else none

/-- Outcome of one iteration of `main`'s `while (true)` loop: either the loop
continues with an updated state, remaining stream and the feedback lines
written during the iteration, or the process exits. -/
inductive StepOutcome where
  | next (s : JudgeState) (rest : List String) (out : List String)
  | exit (e : ExitOutcome)
  deriving DecidableEq, Repr

/-- One iteration of `main`'s loop (`n = 42`):
```
string input = judge.input();
try {
  int guess = stoi(input);
  if (guess == n) { judge.output("正解です！"); judge.correct_answer(); }
  else if (guess < n) { judge.output("もっと大きいです"); }
  else { judge.output("もっと小さいです"); }
} catch (...) { judge.wrong_answer("不正な入力です"); }
``` -/
def loopStep (s : JudgeState) (stdin : List String) : StepOutcome :=
  match input s stdin with
  | .exited e => .exit e
  | .ok line s2 rest =>
      match stoiResult line with
      | none => .exit (wrong_answer "不正な入力です")
      | some guess =>
          if guess = 42 then .exit (outputThen "正解です！" correct_answer)
          else if guess < 42 then .next s2 rest ["もっと大きいです"]
          else .next s2 rest ["もっと小さいです"]

/-- `stoi("")` throws: the empty string holds no digits. -/
theorem stoiResult_empty : stoiResult "" = none := rfl

/-- `input` never returns a line when the limit check fires. -/
theorem input_of_limit {s : JudgeState} (stdin : List String)
    (h : s.max_queries ≤ (s.query_count : Int)) :
    input s stdin = .exited (wrong_answer "クエリ制限超過") := by
  unfold input
  rw [if_pos h]

/-- `input` under the limit: the head line (or `""` at end of stream) is
returned, the counter increments, the rest of the stream remains. -/
theorem input_of_lt {s : JudgeState} (stdin : List String)
    (h : (s.query_count : Int) < s.max_queries) :
    input s stdin =
      .ok (stdin.headD "") { s with query_count := s.query_count + 1 }
        stdin.tail := by
  unfold input
  rw [if_neg (not_le.mpr h)]
  cases stdin <;> rfl

/-- Case analysis on a call to `input`. -/
theorem input_elim (s : JudgeState) (stdin : List String) :
    (s.max_queries ≤ (s.query_count : Int) ∧
      input s stdin = .exited (wrong_answer "クエリ制限超過")) ∨
    ((s.query_count : Int) < s.max_queries ∧
      input s stdin =
        .ok (stdin.headD "") { s with query_count := s.query_count + 1 }
          stdin.tail) := by
  by_cases h : s.max_queries ≤ (s.query_count : Int)
  · exact Or.inl ⟨h, input_of_limit stdin h⟩
  · exact Or.inr ⟨not_le.mp h, input_of_lt stdin (not_le.mp h)⟩

/-- The query-limit branch of `input` makes the whole iteration exit. -/
theorem loopStep_limit {s : JudgeState} (stdin : List String)
    (h : s.max_queries ≤ (s.query_count : Int)) :
    loopStep s stdin = .exit (wrong_answer "クエリ制限超過") := by
  unfold loopStep
  rw [input_of_limit stdin h]

/-- An iteration at end of stream, under the limit: `input` returns `""`,
`stoi` throws, `wrong_answer` exits. -/
theorem loopStep_nil_eval {s : JudgeState}
    (h : (s.query_count : Int) < s.max_queries) :
    loopStep s [] = .exit (wrong_answer "不正な入力です") := by
  unfold loopStep input
  rw [if_neg (not_le.mpr h)]
  rfl

/-- An iteration on a line that fails to parse, under the limit. -/
theorem loopStep_cons_none {s : JudgeState} {l : String} (r : List String)
    (h : (s.query_count : Int) < s.max_queries) (hp : stoiResult l = none) :
    loopStep s (l :: r) = .exit (wrong_answer "不正な入力です") := by
  unfold loopStep input
  rw [if_neg (not_le.mpr h)]
  dsimp only
  rw [hp]

/-- An iteration on a line that parses to `g`, under the limit: the guess is
compared against the target 42. -/
theorem loopStep_cons_some {s : JudgeState} {l : String} (r : List String)
    {g : Int} (h : (s.query_count : Int) < s.max_queries)
    (hp : stoiResult l = some g) :
    loopStep s (l :: r) =
      (if g = 42 then .exit (outputThen "正解です！" correct_answer)
       else if g < 42 then
         .next { s with query_count := s.query_count + 1 } r ["もっと大きいです"]
       else
         .next { s with query_count := s.query_count + 1 } r ["もっと小さいです"]) := by
  unfold loopStep input
  rw [if_neg (not_le.mpr h)]
  dsimp only
  rw [hp]

/-- The loop never continues past the end of the stream: on `[]`, either the
limit check exits, or `input` returns `""`, `stoi("")` throws and
`wrong_answer` exits. -/
theorem loopStep_nil (s : JudgeState) :
    loopStep s [] = .exit (wrong_answer "クエリ制限超過") ∨
    loopStep s [] = .exit (wrong_answer "不正な入力です") := by
  by_cases h : s.max_queries ≤ (s.query_count : Int)
  · exact Or.inl (loopStep_limit [] h)
  · exact Or.inr (loopStep_nil_eval (not_le.mp h))

/-- A continuing iteration consumes exactly the head of the stream. -/
theorem loopStep_next_tail {s : JudgeState} {l : String} {r : List String}
    {s2 : JudgeState} {rest out : List String}
    (h : loopStep s (l :: r) = .next s2 rest out) : rest = r := by
  by_cases hc : s.max_queries ≤ (s.query_count : Int)
  · rw [loopStep_limit (l :: r) hc] at h
    cases h
  · cases hp : stoiResult l with
    | none =>
        rw [loopStep_cons_none r (not_le.mp hc) hp] at h
        cases h
    | some g =>
        rw [loopStep_cons_some r (not_le.mp hc) hp] at h
        split at h
        · cases h
        · split at h <;> (cases h; rfl)

/-- A continuing iteration strictly shrinks the stream. -/
theorem loopStep_next_length {s : JudgeState} {stdin : List String}
    {s2 : JudgeState} {rest out : List String}
    (h : loopStep s stdin = .next s2 rest out) :
    rest.length < stdin.length := by
  cases stdin with
  | nil =>
      rcases loopStep_nil s with h2 | h2 <;> rw [h2] at h <;> cases h
  | cons l r =>
      rw [loopStep_next_tail h]
      exact Nat.lt_succ_self _

/-- `main`'s `while (true)` loop, run to process exit.  The result is total
because each iteration either exits or consumes one line, and an iteration at
end of stream always exits (`loopStep_nil`). -/
def runLoop (s : JudgeState) (stdin : List String) : ExitOutcome :=
  match h : loopStep s stdin with
  | .exit e => e
  | .next s2 rest out => prependOut out (runLoop s2 rest)
  termination_by stdin.length
  decreasing_by exact loopStep_next_length h

/-- The greeting `main` prints before the loop. -/
def greeting : String := "数当てゲームを開始します。1から100の数字を当ててください。"

/-- The whole of `main`: construct the judge (default limit 100), print the
greeting, run the loop. -/
def mainRun (stdin : List String) : ExitOutcome :=
  prependOut [greeting] (runLoop JudgeState.init stdin)

/-- `k` consecutive calls to `input`, all of which must be accepted (return a
line); `none` when some call exits the process instead. -/
def receiveSeq : Nat → JudgeState → List String → Option (JudgeState × List String)
  | 0, s, stdin => some (s, stdin)
  | k + 1, s, stdin =>
      match input s stdin with
      | .exited _ => none
      | .ok _ s2 rest => receiveSeq k s2 rest

/-- A successful `input` call: the counter was strictly under the limit, it
increments by one, and the limit is untouched. -/
theorem input_ok_inv {s : JudgeState} {stdin : List String} {l : String}
    {s2 : JudgeState} {rest : List String}
    (h : input s stdin = .ok l s2 rest) :
    (s.query_count : Int) < s.max_queries ∧
      s2.query_count = s.query_count + 1 ∧ s2.max_queries = s.max_queries := by
  rcases input_elim s stdin with ⟨_, hin⟩ | ⟨hlt, hin⟩ <;> rw [hin] at h
  · cases h
  · cases h
    exact ⟨hlt, rfl, rfl⟩

/-- After `k` accepted calls, the counter has grown by exactly `k` and the
limit is unchanged. -/
theorem receiveSeq_some {k : Nat} {s : JudgeState} {stdin : List String}
    {s2 : JudgeState} {rest : List String}
    (h : receiveSeq k s stdin = some (s2, rest)) :
    s2.query_count = s.query_count + k ∧ s2.max_queries = s.max_queries := by
  induction k generalizing s stdin with
  | zero =>
      cases h
      exact ⟨rfl, rfl⟩
  | succ k ih =>
      unfold receiveSeq at h
      cases hin : input s stdin <;> rw [hin] at h
      · cases h
      · obtain ⟨_, hc, hm⟩ := input_ok_inv hin
        obtain ⟨hc2, hm2⟩ := ih h
        constructor
        · rw [hc2, hc]
          omega
        · rw [hm2, hm]

/-- The invariant `query_count ≤ max_queries` is preserved by any run of
accepted calls. -/
theorem receiveSeq_le {k : Nat} {s : JudgeState} {stdin : List String}
    {s2 : JudgeState} {rest : List String}
    (h0 : (s.query_count : Int) ≤ s.max_queries)
    (h : receiveSeq k s stdin = some (s2, rest)) :
    (s2.query_count : Int) ≤ s2.max_queries := by
  induction k generalizing s stdin with
  | zero =>
      cases h
      exact h0
  | succ k ih =>
      unfold receiveSeq at h
      cases hin : input s stdin <;> rw [hin] at h
      · cases h
      · rename_i l s3 rest3
        obtain ⟨hlt, hc, hm⟩ := input_ok_inv hin
        refine ih ?_ h
        rw [hc, hm]
        push_cast
        omega

/-- Unfolding `runLoop` on an iteration that exits. -/
theorem runLoop_exit {s : JudgeState} {stdin : List String} {e : ExitOutcome}
    (h : loopStep s stdin = .exit e) : runLoop s stdin = e := by
  rw [runLoop.eq_def]
  split
  · rename_i e2 h2
    rw [h] at h2
    cases h2
    rfl
  · rename_i s2 rest out h2
    rw [h] at h2
    cases h2

/-- Unfolding `runLoop` on an iteration that continues. -/
theorem runLoop_next {s : JudgeState} {stdin : List String} {s2 : JudgeState}
    {rest out : List String} (h : loopStep s stdin = .next s2 rest out) :
    runLoop s stdin = prependOut out (runLoop s2 rest) := by
  rw [runLoop.eq_def]
  split
  · rename_i e2 h2
    rw [h] at h2
    cases h2
  · rename_i s3 rest3 out3 h2
    rw [h] at h2
    cases h2
    rfl

/-- Every exiting iteration exits through `correct_answer` (status 0) or
`wrong_answer` (status 1). -/
theorem loopStep_exit_status {s : JudgeState} {stdin : List String}
    {e : ExitOutcome} (h : loopStep s stdin = .exit e) :
    e.status = 0 ∨ e.status = 1 := by
  by_cases hc : s.max_queries ≤ (s.query_count : Int)
  · rw [loopStep_limit stdin hc] at h
    cases h
    exact Or.inr rfl
  · replace hc := not_le.mp hc
    cases stdin with
    | nil =>
        rw [loopStep_nil_eval hc] at h
        cases h
        exact Or.inr rfl
    | cons l r =>
        cases hp : stoiResult l with
        | none =>
            rw [loopStep_cons_none r hc hp] at h
            cases h
            exact Or.inr rfl
        | some g =>
            rw [loopStep_cons_some r hc hp] at h
            split at h
            · cases h
              exact Or.inl rfl
            · split at h <;> cases h

/-- Every complete run exits with status 0 or status 1. -/
theorem runLoop_status (s : JudgeState) (stdin : List String) :
    (runLoop s stdin).status = 0 ∨ (runLoop s stdin).status = 1 := by
  induction stdin generalizing s with
  | nil =>
      rcases loopStep_nil s with h | h <;> rw [runLoop_exit h] <;>
        exact Or.inr rfl
  | cons l r ih =>
      cases h : loopStep s (l :: r) with
      | exit e =>
          rw [runLoop_exit h]
          exact loopStep_exit_status h
      | next s2 rest out =>
          rw [loopStep_next_tail h] at h
          rw [runLoop_next h]
          exact ih s2

/-- C1: with `query_limit = N > 0` on a fresh session, once `N` calls to
`input` have been accepted, the next call exits through
`wrong_answer("クエリ制限超過")` with status 1, whatever stream it is given —
in particular it reads no line of it, and the prior `N` lines' content is
irrelevant. -/
theorem query_limit_exhaustion (N : Nat) (hN : 0 < N) (stdin : List String)
    (s2 : JudgeState) (rest : List String)
    (h : receiveSeq N ⟨0, (N : Int)⟩ stdin = some (s2, rest))
    (any : List String) :
    input s2 any = .exited (wrong_answer "クエリ制限超過") ∧
    (wrong_answer "クエリ制限超過").status = 1 := by
  obtain ⟨hc, hm⟩ := receiveSeq_some h
  have hm2 : s2.max_queries = (N : Int) := hm
  have hc2 : s2.query_count = 0 + N := hc
  refine ⟨input_of_limit any ?_, rfl⟩
  rw [hm2, hc2]
  push_cast
  omega

/-- C1 witness: limit 1, one accepted read of "x", then the rejected call on a
nonempty stream. -/
theorem query_limit_exhaustion_witness :
    input ⟨1, 1⟩ ["y"] = .exited (wrong_answer "クエリ制限超過") ∧
    (wrong_answer "クエリ制限超過").status = 1 :=
  query_limit_exhaustion 1 (by decide) ["x"] ⟨1, 1⟩ [] (by decide) ["y"]

/-- C2: from a fresh session with positive limit `N`, after any `k` accepted
`input` calls the counter equals exactly `k`; the invariant
`query_count ≤ max_queries` holds afterwards; and whenever the check fails,
`input` immediately exits through `wrong_answer("クエリ制限超過")`. -/
theorem queries_used_counting (N : Int) (hN : 0 < N) (k : Nat)
    (stdin : List String) (s2 : JudgeState) (rest : List String)
    (h : receiveSeq k ⟨0, N⟩ stdin = some (s2, rest)) :
    s2.query_count = k ∧ (s2.query_count : Int) ≤ s2.max_queries ∧
    (∀ (s3 : JudgeState) (other : List String),
      s3.max_queries ≤ (s3.query_count : Int) →
      input s3 other = .exited (wrong_answer "クエリ制限超過")) := by
  obtain ⟨hc, hm⟩ := receiveSeq_some h
  have hc2 : s2.query_count = 0 + k := hc
  refine ⟨by omega, ?_, fun s3 other h3 => input_of_limit other h3⟩
  refine receiveSeq_le ?_ h
  show ((0 : Nat) : Int) ≤ N
  omega

/-- C2 witness: three accepted reads under the default limit leave the counter
at 3. -/
theorem queries_used_counting_witness :
    (⟨3, 100⟩ : JudgeState).query_count = 3 :=
  (queries_used_counting 100 (by decide) 3 ["50", "70", "60"] ⟨3, 100⟩ []
    (by decide)).1

/-- C3: `correct_answer` exits with status 0; `wrong_answer` always exits with
status 1, which is non-zero; and a complete run of the loop can only end
through one of the two, so every run's exit status is 0 or 1 (the
`ExitOutcome` a run produces is final: nothing is written after it). -/
theorem verdict_exit_status :
    correct_answer.status = 0 ∧
    (∀ reason, (wrong_answer reason).status = 1) ∧
    (∀ reason, (wrong_answer reason).status ≠ 0) ∧
    (∀ (s : JudgeState) (stdin : List String),
      (runLoop s stdin).status = 0 ∨ (runLoop s stdin).status = 1) :=
  ⟨rfl, fun _ => rfl, fun _ => Nat.one_ne_zero, runLoop_status⟩

/-- C4: while `query_count < max_queries`, `input` consumes exactly the head
line of the stream, returns it (lines are modelled already stripped of their
terminator, as `getline` strips it), and increments `query_count` by one. -/
theorem receive_under_limit (s : JudgeState) (l : String) (rest : List String)
    (h : (s.query_count : Int) < s.max_queries) :
    input s (l :: rest) =
      .ok l { s with query_count := s.query_count + 1 } rest :=
  input_of_lt (l :: rest) h

/-- C4 witness: the first read under the default limit returns "50" and leaves
"70" unread. -/
theorem receive_under_limit_witness :
    input ⟨0, 100⟩ ["50", "70"] = .ok "50" ⟨1, 100⟩ ["70"] :=
  receive_under_limit ⟨0, 100⟩ "50" ["70"] (by decide)

/-- C5: a received line that fails integer parsing is caught by the loop's
`catch (...)` and converted into `wrong_answer("不正な入力です")`: the iteration
exits with status 1, never an unhandled fault; "abc" is such a line. -/
theorem malformed_input_rejected (s : JudgeState) (line : String)
    (rest : List String) (hq : (s.query_count : Int) < s.max_queries)
    (hp : stoiResult line = none) :
    loopStep s (line :: rest) = .exit (wrong_answer "不正な入力です") ∧
    (wrong_answer "不正な入力です").status = 1 ∧
    stoiResult "abc" = none :=
  ⟨loopStep_cons_none rest hq hp, rfl, by decide⟩

/-- C5 witness: a fresh session fed "abc" exits through the invalid-input
rejection. -/
theorem malformed_input_rejected_witness :
    loopStep JudgeState.init ["abc"] = .exit (wrong_answer "不正な入力です") :=
  (malformed_input_rejected JudgeState.init "abc" [] (by decide) (by decide)).1

/-- C6: `wrong_answer` writes its reason line to `cerr` only; `cout` receives
nothing from it, so the solution-under-test never observes diagnostic-reason
text on the judge-to-solution channel. -/
theorem reject_diagnostic_only (reason : String) :
    (wrong_answer reason).stdoutLines = [] ∧
    (wrong_answer reason).stderrLines = ["Wrong Answer: " ++ reason] :=
  ⟨rfl, rfl⟩

/-- C7: in the example loop (target 42), under the query limit: a line parsing
below 42 emits "もっと大きいです" and the loop continues (the session stays
active with the counter bumped), a line parsing above 42 emits "もっと小さいです"
and continues, and a line parsing to exactly 42 emits "正解です！" and exits
through `correct_answer` with status 0. -/
theorem guessing_feedback (s : JudgeState) (line : String) (rest : List String)
    (v : Int) (hq : (s.query_count : Int) < s.max_queries)
    (hp : stoiResult line = some v) :
    (v < 42 → loopStep s (line :: rest) =
      .next { s with query_count := s.query_count + 1 } rest
        ["もっと大きいです"]) ∧
    (42 < v → loopStep s (line :: rest) =
      .next { s with query_count := s.query_count + 1 } rest
        ["もっと小さいです"]) ∧
    (v = 42 → loopStep s (line :: rest) =
      .exit (outputThen "正解です！" correct_answer) ∧
      (outputThen "正解です！" correct_answer).status = 0) := by
  rw [loopStep_cons_some rest hq hp]
  refine ⟨?_, ?_, ?_⟩
  · intro hv
    rw [if_neg (by omega : ¬ v = 42), if_pos hv]
  · intro hv
    rw [if_neg (by omega : ¬ v = 42), if_neg (by omega : ¬ v < 42)]
  · intro hv
    subst hv
    exact ⟨by rw [if_pos rfl], rfl⟩

/-- C7 witness: a fresh session fed "50" (above the target) gets
"もっと小さいです" and the loop continues. -/
theorem guessing_feedback_witness :
    loopStep JudgeState.init ["50"] = .next ⟨1, 100⟩ [] ["もっと小さいです"] :=
  (guessing_feedback JudgeState.init "50" [] 50 (by decide) (by decide)).2.1
    (by decide)

/-- C8: at end of stream, `input` still increments the counter and returns the
empty string (as the failed `getline` leaves it) instead of signalling
end-of-input; `stoi("")` then throws, so the loop exits through
`wrong_answer("不正な入力です")` — the invalid-input reason, not a dedicated
end-of-input one — rather than hanging. -/
theorem eof_empty_line (s : JudgeState)
    (hq : (s.query_count : Int) < s.max_queries) :
    input s [] = .ok "" { s with query_count := s.query_count + 1 } [] ∧
    stoiResult "" = none ∧
    loopStep s [] = .exit (wrong_answer "不正な入力です") :=
  ⟨input_of_lt [] hq, stoiResult_empty, loopStep_nil_eval hq⟩

/-- C8 witness: a fresh session with an exhausted stream exits through the
invalid-input rejection. -/
theorem eof_empty_line_witness :
    loopStep JudgeState.init [] = .exit (wrong_answer "不正な入力です") :=
  (eof_empty_line JudgeState.init (by decide)).2.2

/-- C9: `set_max_queries` stores any integer `m` — including `m ≤ 0` and `m`
below the queries already used — with no validation, leaving `query_count`
unchanged; and whenever the counter already meets the new limit, the very next
`input` call exits without reading any input. -/
theorem set_max_queries_unchecked (s : JudgeState) (m : Int) :
    (set_max_queries s m).max_queries = m ∧
    (set_max_queries s m).query_count = s.query_count ∧
    (∀ stdin, m ≤ (s.query_count : Int) →
      input (set_max_queries s m) stdin =
        .exited (wrong_answer "クエリ制限超過")) :=
  ⟨rfl, rfl, fun stdin h => input_of_limit stdin h⟩

/-- C9 witness: lowering the limit to −5 after 3 reads makes the next `input`
call exit without reading. -/
theorem set_max_queries_unchecked_witness :
    input (set_max_queries ⟨3, 100⟩ (-5)) ["x"] =
      .exited (wrong_answer "クエリ制限超過") :=
  (set_max_queries_unchecked ⟨3, 100⟩ (-5)).2.2 ["x"] (by decide)

/-- A digit is none of the six whitespace characters `strtol` skips. -/
theorem isDigit_not_space {c : Char} (h : c.isDigit = true) :
    isSpaceChar c = false := by
  cases hs : isSpaceChar c
  · rfl
  · unfold isSpaceChar at hs
    simp only [Bool.or_eq_true, decide_eq_true_eq] at hs
    rcases hs with ((((h1 | h1) | h1) | h1) | h1) | h1 <;> subst h1 <;>
      exact absurd h (by decide)

/-- `dropWhile` leaves a list alone when its head fails the predicate. -/
theorem dropWhile_head_false {p : Char → Bool} {c : Char} (l : List Char)
    (h : p c = false) : List.dropWhile p (c :: l) = c :: l := by
  rw [List.dropWhile_cons, if_neg]
  simp [h]

/-- `stoiResult` skips one leading whitespace character. -/
theorem stoiResult_cons_space {c : Char} (hc : isSpaceChar c = true)
    (l : List Char) :
    stoiResult (String.mk (c :: l)) = stoiResult (String.mk l) := by
  unfold stoiResult
  have h1 : (String.mk (c :: l)).toList = c :: l := rfl
  have h2 : (String.mk l).toList = l := rfl
  rw [h1, h2, List.dropWhile_cons, if_pos hc]

/-- `stoiResult` skips any run of leading whitespace. -/
theorem stoiResult_whitespace {ws : List Char}
    (h : ∀ c ∈ ws, isSpaceChar c = true) (l : List Char) :
    stoiResult (String.mk (ws ++ l)) = stoiResult (String.mk l) := by
  induction ws with
  | nil => rfl
  | cons c cs ih =>
      rw [List.cons_append,
        stoiResult_cons_space (h c (List.mem_cons_self c cs))]
      exact ih (fun x hx => h x (List.mem_cons_of_mem c hx))

/-- `takeWhile isDigit` on a digit run followed by a non-digit-led remainder
yields exactly the digit run. -/
theorem takeWhile_digits_append {ds tail : List Char}
    (hdig : ∀ c ∈ ds, c.isDigit = true)
    (htail : ∀ c, tail.head? = some c → c.isDigit = false) :
    List.takeWhile Char.isDigit (ds ++ tail) = ds := by
  induction ds with
  | nil =>
      cases tail with
      | nil => rfl
      | cons c t =>
          rw [List.nil_append, List.takeWhile_cons, if_neg]
          simp [htail c rfl]
  | cons c cs ih =>
      rw [List.cons_append, List.takeWhile_cons,
        if_pos (hdig c (List.mem_cons_self c cs))]
      rw [ih (fun x hx => hdig x (List.mem_cons_of_mem c hx))]

/-- The digits parsed from a digit run are unchanged by a trailing non-digit
remainder. -/
theorem parseDigits_append {ds tail : List Char}
    (hdig : ∀ c ∈ ds, c.isDigit = true)
    (htail : ∀ c, tail.head? = some c → c.isDigit = false) :
    parseDigits (ds ++ tail) = parseDigits ds := by
  have h2 := takeWhile_digits_append hdig
    (fun c hc => by simp at hc : ∀ c, ([] : List Char).head? = some c →
      c.isDigit = false)
  rw [List.append_nil] at h2
  unfold parseDigits
  rw [takeWhile_digits_append hdig htail, h2]

/-- The sign dispatch of `strtol` falls through to the unsigned case whenever
the first non-whitespace character is neither `+` nor `-`. -/
theorem signMatch_other (c0 : Char) (t : List Char) (h1 : c0 ≠ '+')
    (h2 : c0 ≠ '-') :
    (match (c0 :: t : List Char) with
     | '+' :: rest => ((1 : Int), parseDigits rest)
     | '-' :: rest => (-1, parseDigits rest)
     | x => (1, parseDigits (c0 :: t))) =
      ((1 : Int), parseDigits (c0 :: t)) := by
  split
  · rename_i rest heq
    injection heq with hh ht
    exact absurd hh h1
  · rename_i rest heq
    injection heq with hh ht
    exact absurd hh h2
  · rfl

/-- `stoi` on a string starting with `+`: the value of the digits after the
sign, provided it fits in `int`. -/
theorem stoi_core_plus (t : List Char) (d : Nat)
    (hds : parseDigits t = some d) (hr : (d : Int) ≤ 2147483647) :
    stoiResult (String.mk ('+' :: t)) = some (d : Int) := by
  unfold stoiResult
  have h1 : (String.mk ('+' :: t)).toList = '+' :: t := rfl
  rw [h1, dropWhile_head_false _ (by decide : isSpaceChar '+' = false)]
  dsimp only
  have hm : (match ('+' :: t : List Char) with
    | '+' :: rest => ((1 : Int), parseDigits rest)
    | '-' :: rest => (-1, parseDigits rest)
    | x => (1, parseDigits ('+' :: t))) = ((1 : Int), parseDigits t) := rfl
  rw [hm, hds]
  dsimp only
  rw [if_pos]
  · simp
  · constructor <;> omega

/-- `stoi` on a string starting with `-`: the negated value of the digits
after the sign, provided it fits in `int`. -/
theorem stoi_core_minus (t : List Char) (d : Nat)
    (hds : parseDigits t = some d) (hr : -2147483648 ≤ -(d : Int)) :
    stoiResult (String.mk ('-' :: t)) = some (-(d : Int)) := by
  unfold stoiResult
  have h1 : (String.mk ('-' :: t)).toList = '-' :: t := rfl
  rw [h1, dropWhile_head_false _ (by decide : isSpaceChar '-' = false)]
  dsimp only
  have hm : (match ('-' :: t : List Char) with
    | '+' :: rest => ((1 : Int), parseDigits rest)
    | '-' :: rest => (-1, parseDigits rest)
    | x => (1, parseDigits ('-' :: t))) = ((-1 : Int), parseDigits t) := rfl
  rw [hm, hds]
  dsimp only
  rw [if_pos]
  · simp
  · constructor <;> omega

/-- `stoi` on a string starting with a character that is no sign and no
whitespace: the value of its leading digits, provided it fits in `int`. -/
theorem stoi_core_nosign (c0 : Char) (t : List Char) (d : Nat)
    (h1 : c0 ≠ '+') (h2 : c0 ≠ '-') (hsp : isSpaceChar c0 = false)
    (hds : parseDigits (c0 :: t) = some d) (hr : (d : Int) ≤ 2147483647) :
    stoiResult (String.mk (c0 :: t)) = some (d : Int) := by
  unfold stoiResult
  have he : (String.mk (c0 :: t)).toList = c0 :: t := rfl
  rw [he, dropWhile_head_false _ hsp]
  dsimp only
  rw [signMatch_other c0 t h1 h2, hds]
  dsimp only
  rw [if_pos]
  · simp
  · constructor <;> omega

/-- C10: the example loop's parse accepts any line with a valid integer
prefix, not only fully numeric lines.  For every line made of optional
leading whitespace `ws`, an optional sign `sgn`, a nonempty digit run `ds`
parsing as `d`, and an arbitrary remainder `tail` not starting with a digit,
with the signed value `v` inside `int` range: `stoi` yields exactly `v`, the
loop interprets the line as the guess `v` — never as malformed input — and in
particular the full run on ["42xyz"] is accepted with exit status 0. -/
theorem integer_prefix_accepted (ws sgn ds tail : List Char) (d : Nat)
    (v : Int) (hws : ∀ c ∈ ws, isSpaceChar c = true)
    (hsgn : sgn = [] ∨ sgn = ['+'] ∨ sgn = ['-'])
    (hdig : ∀ c ∈ ds, c.isDigit = true)
    (hds : parseDigits ds = some d)
    (htail : ∀ c, tail.head? = some c → c.isDigit = false)
    (hv : v = (if sgn = ['-'] then (-1 : Int) else 1) * (d : Int))
    (hrange : -2147483648 ≤ v ∧ v ≤ 2147483647) :
    stoiResult (String.mk (ws ++ (sgn ++ (ds ++ tail)))) = some v ∧
    (∀ (s : JudgeState) (rest : List String),
      (s.query_count : Int) < s.max_queries →
      loopStep s (String.mk (ws ++ (sgn ++ (ds ++ tail))) :: rest) =
        (if v = 42 then .exit (outputThen "正解です！" correct_answer)
         else if v < 42 then
           .next { s with query_count := s.query_count + 1 } rest
             ["もっと大きいです"]
         else
           .next { s with query_count := s.query_count + 1 } rest
             ["もっと小さいです"]) ∧
      loopStep s (String.mk (ws ++ (sgn ++ (ds ++ tail))) :: rest) ≠
        .exit (wrong_answer "不正な入力です")) ∧
    mainRun ["42xyz"] = ⟨0, [greeting, "正解です！"], []⟩ := by
  have hne : ds ≠ [] := by
    intro he
    rw [he] at hds
    exact Option.noConfusion hds
  obtain ⟨c0, ds0, rfl⟩ : ∃ c0 ds0, ds = c0 :: ds0 := by
    cases ds with
    | nil => exact absurd rfl hne
    | cons c0 ds0 => exact ⟨c0, ds0, rfl⟩
  have hd0 : c0.isDigit = true := hdig c0 (List.mem_cons_self c0 ds0)
  have hplus : c0 ≠ '+' := by
    intro he
    rw [he] at hd0
    exact absurd hd0 (by decide)
  have hminus : c0 ≠ '-' := by
    intro he
    rw [he] at hd0
    exact absurd hd0 (by decide)
  have hpd : parseDigits ((c0 :: ds0) ++ tail) = some d := by
    rw [parseDigits_append hdig htail]
    exact hds
  have hstoi : stoiResult (String.mk (ws ++ (sgn ++ ((c0 :: ds0) ++ tail)))) =
      some v := by
    rw [stoiResult_whitespace hws]
    rcases hsgn with rfl | rfl | rfl
    · rw [if_neg (by decide)] at hv
      rw [List.nil_append, hv, one_mul]
      exact stoi_core_nosign c0 (ds0 ++ tail) d hplus hminus
        (isDigit_not_space hd0) hpd (by omega)
    · rw [if_neg (by decide)] at hv
      rw [hv, one_mul]
      exact stoi_core_plus ((c0 :: ds0) ++ tail) d hpd (by omega)
    · rw [if_pos rfl] at hv
      rw [hv, neg_one_mul]
      exact stoi_core_minus ((c0 :: ds0) ++ tail) d hpd (by omega)
  refine ⟨hstoi, fun s rest hq => ⟨loopStep_cons_some rest hq hstoi, ?_⟩, ?_⟩
  · rw [loopStep_cons_some rest hq hstoi]
    split
    · decide
    · split
      · exact fun hbad => StepOutcome.noConfusion hbad
      · exact fun hbad => StepOutcome.noConfusion hbad
  · unfold mainRun
    rw [runLoop_exit (show loopStep JudgeState.init ["42xyz"] =
      .exit ⟨0, ["正解です！"], []⟩ by decide)]
    rfl

/-- C10 witness: "42xyz" — no whitespace, no sign, digit run "42", remainder
"xyz" — parses to 42 and the run on it is accepted with exit status 0. -/
theorem integer_prefix_accepted_witness :
    stoiResult (String.mk ([] ++ ([] ++ (['4', '2'] ++ ['x', 'y', 'z'])))) =
      some 42 ∧
    mainRun ["42xyz"] = ⟨0, [greeting, "正解です！"], []⟩ := by
  have h := integer_prefix_accepted [] [] ['4', '2'] ['x', 'y', 'z'] 42 42
    (by decide) (Or.inl rfl) (by decide) (by decide)
    (by intro c hc; cases hc; decide) (by decide) (by decide)
  exact ⟨h.1, h.2.2⟩

end Tester
